import Mathlib

/-!
# Verification of the AI-ML attendance system's decision core

Shallow embedding of the attendance decision engine of the repository
(`attendance_recognition.py`, `attendance_recognition2.py`, `app.py`,
`add_user.py`) and proofs of the spec's claims about it.

Face distances are modelled as rationals (the Python floats' role here is
only to be linearly ordered and compared against the 0.52 tolerance).
Timestamps are modelled as integer seconds.
-/

namespace Attendance

/-! ## Matcher: `np.argmin`, `compare_faces`, and the per-face decision

`np.argmin` on a nonempty array returns the index of the first occurrence of
the minimum value; on an empty array it raises `ValueError`.  We model it as
an `Option Nat` whose `none` case is the raised exception. -/

/-- Model of the scan `np.argmin` performs after the first element: `bv` and
`bi` are the best value and its index so far, `i` is the index of the head of
the remaining list.  numpy keeps the earlier index on ties, which the strict
`<` update reproduces. -/
def argminGo : List ℚ → ℚ → Nat → Nat → Nat
  | [], _, bi, _ => bi
  | y :: ys, bv, bi, i => if y < bv then argminGo ys y i (i + 1) else argminGo ys bv bi (i + 1)

/-- Model of `np.argmin(face_distances)`: `none` models the `ValueError`
raised on an empty array. -/
def np_argmin : List ℚ → Option Nat
  | [] => none
  | x :: xs => some (argminGo xs x 0 1)

/-- Model of the external library call
`face_recognition.compare_faces(known, enc, tol)`, which is
`list(face_distance(known, enc) <= tol)`: entry `i` is `true` exactly when
the distance to gallery entry `i` is at most the tolerance. -/
def compare_faces (dists : List ℚ) (tol : ℚ) : List Bool :=
  dists.map (fun d => decide (d ≤ tol))

/-- Outcome of processing one detected face in the main video loop. -/
inductive Outcome where
  | accepted (name : String)
  | unknown
  deriving DecidableEq

/-- The strictness setting `TOLERANCE = 0.52` of both recognition scripts. -/
def TOLERANCE : ℚ := 52 / 100

/-- Model of the per-face body of the main video loop (identical in both
recognition scripts): compute `matches = compare_faces(...)`, the distance
array, `best = np.argmin(face_distances)`, and accept exactly when
`matches[best] and face_distances[best] < tol`.  `names` are the gallery
names, `dists` the distances of the query to each gallery entry (same
length).  The `Except.error` case models the uncaught `ValueError` that
`np.argmin` raises on an empty gallery, which crashes the loop. -/
def processFace (names : List String) (dists : List ℚ) (tol : ℚ) :
    Except String Outcome :=
  match np_argmin dists with
  | none => Except.error "ValueError: attempt to get argmin of an empty sequence"
  | some best =>
      if (compare_faces dists tol).getD best false = true ∧ dists.getD best 0 < tol then
        Except.ok (Outcome.accepted (names.getD best "Unknown"))
      else
        Except.ok Outcome.unknown

/-- Names handed to the attendance-recording call (`mark_attendance_via_api`
resp. `log_attendance`) while processing one face: exactly the accepted name,
nothing on `Unknown`, nothing on a crash. -/
def attendanceCalls (names : List String) (dists : List ℚ) (tol : ℚ) : List String :=
  match processFace names dists tol with
  | Except.ok (Outcome.accepted n) => [n]
  | _ => []

/-- Refinement variant of the per-face decision written from the claim's
words: the acceptance test is the single strict comparison
`face_distances[best] < tol`, with no `compare_faces` conjunct. -/
def processFace_strict (names : List String) (dists : List ℚ) (tol : ℚ) :
    Except String Outcome :=
  match np_argmin dists with
  | none => Except.error "ValueError: attempt to get argmin of an empty sequence"
  | some best =>
      if dists.getD best 0 < tol then
        Except.ok (Outcome.accepted (names.getD best "Unknown"))
      else
        Except.ok Outcome.unknown

/-! ## Identity-key normalization

Models of the Python string operations the scripts apply to roster
directory names: `name.replace('_', ' ').title()` when building the gallery
and `face_id_name.lower().replace(' ', '_')` when building the API payload.
`Char.toLower`, `Char.toUpper` and `Char.isAlpha` are the ASCII case maps,
which agree with Python on the ASCII directory names the claims quantify
over. -/

/-- Model of `name.replace('_', ' ')` on the character list. -/
def underscoresToSpaces (l : List Char) : List Char :=
  l.map fun c => if c = '_' then ' ' else c

/-- Model of `s.replace(' ', '_')` on the character list. -/
def spacesToUnderscores (l : List Char) : List Char :=
  l.map fun c => if c = ' ' then '_' else c

/-- ASCII model of Python `str.title`: an alphabetic character is
upper-cased when the previous character was not alphabetic and lower-cased
otherwise; the flag records whether the previous character was
alphabetic. -/
def titleGo : Bool → List Char → List Char
  | _, [] => []
  | prevAlpha, c :: cs =>
      if c.isAlpha then
        (if prevAlpha then c.toLower else c.toUpper) :: titleGo true cs
      else
        c :: titleGo false cs

/-- ASCII model of Python `str.title`. -/
def py_title (l : List Char) : List Char := titleGo false l

/-- ASCII model of Python `str.lower`. -/
def py_lower (l : List Char) : List Char := l.map Char.toLower

/-- Model of `name.replace('_', ' ').title()` from `load_known_faces`: the
display name stored in `known_face_names`. -/
def display_name (dirname : String) : String :=
  String.mk (py_title (underscoresToSpaces dirname.data))

/-- Model of `face_id_name.lower().replace(' ', '_')` from
`mark_attendance_via_api`: the `face_id` field of the POST payload. -/
def payload_face_id (faceIdName : String) : String :=
  String.mk (spacesToUnderscores (py_lower faceIdName.data))

/-! ## Gallery construction (`load_known_faces`) -/

/-- One reference image inside an identity directory, represented by the
list of face encodings `face_recognition.face_encodings` detects in it
(possibly empty). -/
structure RosterImage where
  encodings : List (List ℚ)
  deriving DecidableEq

/-- One identity subdirectory of `training_images`. -/
structure RosterDir where
  name : String
  images : List RosterImage
  deriving DecidableEq

/-- Model of the inner loop of `load_known_faces` over the images of one
directory with display name `disp`: every image in which at least one face
encoding was detected appends its first encoding (`encodings[0]`) and the
display name; images with no detected encoding are skipped. -/
def loadImages (disp : String) : List RosterImage → List (List ℚ) × List String
  | [] => ([], [])
  | img :: rest =>
      let r := loadImages disp rest
      match img.encodings with
      | [] => r
      | e :: _ => (e :: r.1, disp :: r.2)

/-- Model of Python `name.startswith('.')`: the first character is a dot. -/
def startsWithDot (s : String) : Bool :=
  match s.data with
  | [] => false
  | c :: _ => c == '.'

/-- Model of `load_known_faces` (identical in both recognition scripts):
directories whose name starts with a dot are skipped; every other directory
contributes, in order, one gallery entry per successfully-encoded image. -/
def load_known_faces : List RosterDir → List (List ℚ) × List String
  | [] => ([], [])
  | d :: rest =>
      let r := load_known_faces rest
      if startsWithDot d.name then r
      else
        let i := loadImages (display_name d.name) d.images
        (i.1 ++ r.1, i.2 ++ r.2)

/-! ## Local-log sink and its dedup check (`log_attendance`) -/

/-- One parsed line of `attendance_log.csv`: a name and a timestamp in
integer seconds.  The header line and unparsable lines, which the
`try/except` in the source skips, contribute no entry. -/
structure LogEntry where
  name : String
  time : Int
  deriving DecidableEq

/-- Model of the `recently_logged` list built by `log_attendance`: names of
entries whose timestamp is strictly less than 3600 seconds before `now`. -/
def recently_logged (log : List LogEntry) (now : Int) : List String :=
  (log.filter fun e => decide (now - e.time < 3600)).map LogEntry.name

/-- Model of `log_attendance`: if the name is on the recent list nothing is
written and the call reports `false`; otherwise one line `name, now` is
appended and the call reports `true`. -/
def log_attendance (name : String) (now : Int) (log : List LogEntry) :
    Bool × List LogEntry :=
  if name ∈ recently_logged log now then (false, log)
  else (true, log ++ [⟨name, now⟩])

/-! ## Remote sink: the Flask endpoint and the client -/

/-- JSON body of a response from the Flask app: a `message` field on
success, an `error` field on failure. -/
inductive ApiBody where
  | message (text : String)
  | error (text : String)
  deriving DecidableEq

/-- Server state of `app.py`: the enrolled `face_id`s of the `Student` and
`Teacher` tables, and the rows `(person_face_id, timestamp)` of the
`Attendance` table in insertion order. -/
structure ApiState where
  studentIds : List String
  teacherIds : List String
  records : List (String × Int)
  deriving DecidableEq

/-- Model of the `/api/attendance/mark` handler `mark_attendance` in
`app.py`: a missing or falsy (empty) `face_id` yields 400; a `face_id`
enrolled in neither table yields 404; an enrolled `face_id` always appends
a fresh `Attendance` row and yields 201 — the handler performs no cooldown
or duplicate check of any kind. -/
def mark_attendance (faceId : Option String) (now : Int) (s : ApiState) :
    (Nat × ApiBody) × ApiState :=
  match faceId with
  | none => ((400, ApiBody.error "Missing face_id in request data."), s)
  | some fid =>
      if fid = "" then ((400, ApiBody.error "Missing face_id in request data."), s)
      else if fid ∈ s.studentIds ∨ fid ∈ s.teacherIds then
        ((201, ApiBody.message ("Attendance marked for " ++ fid ++ ".")),
          { s with records := s.records ++ [(fid, now)] })
      else
        ((404, ApiBody.error ("ID " ++ fid ++ " recognized by AI but not found in DB. Enroll first.")), s)

/-- Behavior of the network during the single `requests.post` of one
`mark_attendance_via_api` call: a response with its status code and the
optional `error` field of its JSON body, a raised `ConnectionError`, or any
other raised exception. -/
inductive NetResult where
  | response (status : Nat) (errField : Option String)
  | connectionLost
  | raised (msg : String)
  deriving DecidableEq

/-- Printed outcome of one `mark_attendance_via_api` call, one constructor
per `print` site of the source. -/
inductive ClientOutcome where
  | success (name : String)
  | apiFail (status : Nat) (errMsg : String)
  | apiFatal
  | apiError (msg : String)
  deriving DecidableEq

/-- Model of `mark_attendance_via_api`: exactly one `requests.post` is
attempted (the first component counts the posts made); a 201 response
prints `[API SUCCESS]`, any other response prints `[API FAIL]` with the
`error` field of the body (defaulting to "Unknown server issue."), a
`ConnectionError` prints `[API FATAL]` and any other exception prints
`[API ERROR]`; every branch returns normally, so nothing is retried and no
exception reaches the caller. -/
def mark_attendance_via_api (faceIdName : String) (net : NetResult) :
    Nat × ClientOutcome :=
  match net with
  | NetResult.response status errField =>
      if status = 201 then (1, ClientOutcome.success faceIdName)
      else (1, ClientOutcome.apiFail status (errField.getD "Unknown server issue."))
  | NetResult.connectionLost => (1, ClientOutcome.apiFatal)
  | NetResult.raised m => (1, ClientOutcome.apiError m)

/-- Three-way classification of a sink response in the spec's protocol
vocabulary. -/
inductive SpecClass where
  | created
  | conflictDuplicate
  | genericFailure
  deriving DecidableEq

/-- Modelled from the spec: the remote-sink response protocol the claim
asserts — a 201 ("created") response is success, a 409 ("conflict")
response is a distinguished non-fatal duplicate, and any other response is
a generic failure. -/
def spec_response_class (status : Nat) : SpecClass :=
  if status = 201 then SpecClass.created
  else if status = 409 then SpecClass.conflictDuplicate
  else SpecClass.genericFailure

/-- Classification `mark_attendance_via_api` actually applies to a
response: which of its two response branches the status code lands in. -/
def code_response_class (status : Nat) (errField : Option String) : SpecClass :=
  match (mark_attendance_via_api "x" (NetResult.response status errField)).2 with
  | ClientOutcome.success _ => SpecClass.created
  | _ => SpecClass.genericFailure

example : processFace ["A"] [1/2] TOLERANCE = Except.ok (Outcome.accepted "A") := by
  norm_num [processFace, np_argmin, argminGo, compare_faces, TOLERANCE]
example : processFace ["A"] [52/100] TOLERANCE = Except.ok Outcome.unknown := by
  norm_num [processFace, np_argmin, argminGo, compare_faces, TOLERANCE]
example : np_argmin [1, 1/2, 1/2] = some 1 := by
  norm_num [np_argmin, argminGo]

/-! ### Basic lemmas about `np_argmin` -/

theorem argminGo_lt_length (ys : List ℚ) (bv : ℚ) (bi i : Nat) (hbi : bi < i) :
    argminGo ys bv bi i < i + ys.length := by
  induction ys generalizing bv bi i with
  | nil => simpa [argminGo] using Nat.lt_of_lt_of_le hbi (Nat.le_add_right i 0)
  | cons y ys ih =>
      simp only [argminGo, List.length_cons]
      by_cases h : y < bv
      · simp only [h, if_pos]
        have := ih y i (i + 1) (Nat.lt_succ_self i)
        omega
      · simp only [h, if_neg, not_false_iff]
        have := ih bv bi (i + 1) (Nat.lt_succ_of_lt hbi)
        omega

theorem np_argmin_lt_length (dists : List ℚ) (best : Nat)
    (h : np_argmin dists = some best) : best < dists.length := by
  cases dists with
  | nil => simp [np_argmin] at h
  | cons x xs =>
      simp only [np_argmin, Option.some.injEq] at h
      subst h
      have := argminGo_lt_length xs x 0 1 Nat.one_pos
      simp only [List.length_cons]
      omega

/-- Full characterization of the `argminGo` scan.  The returned index is
either the incoming best index `bi` (value `bv`) or `i + k` for a position
`k` in `ys` whose value is strictly below `bv` and strictly below every
earlier position of `ys`; in both cases the value is a lower bound of `bv`
and of all of `ys`. -/
theorem argminGo_spec (ys : List ℚ) (bv : ℚ) (bi i : Nat) :
    ∃ v : ℚ,
      ((argminGo ys bv bi i = bi ∧ v = bv) ∨
        (∃ k, k < ys.length ∧ argminGo ys bv bi i = i + k ∧ v = ys.getD k 0 ∧ v < bv ∧
          ∀ j, j < k → v < ys.getD j 0)) ∧
      v ≤ bv ∧ ∀ k, k < ys.length → v ≤ ys.getD k 0 := by
  induction ys generalizing bv bi i with
  | nil =>
      exact ⟨bv, Or.inl ⟨rfl, rfl⟩, le_refl bv, fun k hk => absurd hk (by simp)⟩
  | cons y ys ih =>
      by_cases h : y < bv
      · obtain ⟨v, hcase, hvle, hub⟩ := ih y i (i + 1)
        have hv_lt : v < bv := lt_of_le_of_lt hvle h
        refine ⟨v, ?_, le_of_lt hv_lt, ?_⟩
        · right
          rcases hcase with ⟨hr, hv⟩ | ⟨k, hk, hr, hv, hvy, hfirst⟩
          · refine ⟨0, by simp, ?_, by simpa using hv, hv_lt, by omega⟩
            simpa [argminGo, h] using hr
          · refine ⟨k + 1, by simpa using Nat.succ_lt_succ hk, ?_, by simpa using hv, hv_lt, ?_⟩
            · have : argminGo (y :: ys) bv bi i = argminGo ys y i (i + 1) := by
                simp [argminGo, h]
              omega
            · intro j hj
              cases j with
              | zero => simpa using hvy
              | succ j => simpa using hfirst j (Nat.lt_of_succ_lt_succ hj)
        · intro k hk
          cases k with
          | zero => simpa using hvle
          | succ k => simpa using hub k (Nat.lt_of_succ_lt_succ (by simpa using hk))
      · obtain ⟨v, hcase, hvle, hub⟩ := ih bv bi (i + 1)
        have hvy : v ≤ y := le_trans hvle (le_of_not_lt h)
        refine ⟨v, ?_, hvle, ?_⟩
        · rcases hcase with ⟨hr, hv⟩ | ⟨k, hk, hr, hv, hvbv, hfirst⟩
          · left
            exact ⟨by simpa [argminGo, h] using hr, hv⟩
          · right
            refine ⟨k + 1, by simpa using Nat.succ_lt_succ hk, ?_, by simpa using hv, hvbv, ?_⟩
            · have : argminGo (y :: ys) bv bi i = argminGo ys bv bi (i + 1) := by
                simp [argminGo, h]
              omega
            · intro j hj
              cases j with
              | zero => simpa using lt_of_lt_of_le hvbv (le_of_not_lt h)
              | succ j => simpa using hfirst j (Nat.lt_of_succ_lt_succ hj)
        · intro k hk
          cases k with
          | zero => simpa using hvy
          | succ k => simpa using hub k (Nat.lt_of_succ_lt_succ (by simpa using hk))

/-- The index `np.argmin` returns on a nonempty distance array attains the
minimum value, and every strictly earlier index holds a strictly larger
value (first-occurrence tie-breaking). -/
theorem np_argmin_spec (dists : List ℚ) (best : Nat)
    (h : np_argmin dists = some best) :
    best < dists.length ∧
      (∀ k, k < dists.length → dists.getD best 0 ≤ dists.getD k 0) ∧
      (∀ j, j < best → dists.getD best 0 < dists.getD j 0) := by
  cases dists with
  | nil => simp [np_argmin] at h
  | cons x xs =>
      have hlt : best < (x :: xs).length := np_argmin_lt_length _ _ h
      simp only [np_argmin, Option.some.injEq] at h
      obtain ⟨v, hcase, hvle, hub⟩ := argminGo_spec xs x 0 1
      rcases hcase with ⟨hr, hv⟩ | ⟨k, hk, hr, hv, hvx, hfirst⟩
      · have hbest : best = 0 := by omega
        subst hbest
        refine ⟨hlt, ?_, by omega⟩
        intro k hk
        cases k with
        | zero => simp
        | succ k =>
            have := hub k (Nat.lt_of_succ_lt_succ (by simpa using hk))
            simpa [← hv] using this
      · have hbest : best = k + 1 := by omega
        subst hbest
        refine ⟨hlt, ?_, ?_⟩
        · intro j hj
          cases j with
          | zero =>
              simp only [List.getD_cons_succ, List.getD_cons_zero]
              rw [← hv]
              exact le_of_lt hvx
          | succ j =>
              have := hub j (Nat.lt_of_succ_lt_succ (by simpa using hj))
              simp only [List.getD_cons_succ]
              rw [← hv]
              simpa using this
        · intro j hj
          cases j with
          | zero =>
              simp only [List.getD_cons_succ, List.getD_cons_zero]
              rw [← hv]
              exact hvx
          | succ j =>
              have := hfirst j (Nat.lt_of_succ_lt_succ hj)
              simp only [List.getD_cons_succ]
              rw [← hv]
              simpa using this

theorem compare_faces_getD (dists : List ℚ) (tol : ℚ) (k : Nat) (hk : k < dists.length) :
    (compare_faces dists tol).getD k false = decide (dists.getD k 0 ≤ tol) := by
  unfold compare_faces
  rw [List.getD_eq_getElem _ _ (by simpa using hk), List.getElem_map,
    List.getD_eq_getElem _ _ hk]

theorem getD_mem (dists : List ℚ) (k : Nat) (hk : k < dists.length) :
    dists.getD k 0 ∈ dists := by
  rw [List.getD_eq_getElem _ _ hk]
  exact List.getElem_mem hk

theorem processFace_eq_of_argmin (names : List String) (dists : List ℚ) (tol : ℚ)
    (best : Nat) (h : np_argmin dists = some best) :
    processFace names dists tol =
      (if (compare_faces dists tol).getD best false = true ∧ dists.getD best 0 < tol then
        Except.ok (Outcome.accepted (names.getD best "Unknown"))
      else Except.ok Outcome.unknown) := by
  unfold processFace
  rw [h]

/-- Claim C3: for every nonempty gallery (distance list) and query, the
attendance-recording path is taken if and only if the minimum distance `m`
to the gallery is strictly below the tolerance; when `tol ≤ m` the outcome
is `Unknown` and no attendance-recording call is made, regardless of any
ledger state (the decision does not consult the ledger at all). -/
theorem C3_threshold_acceptance (names : List String) (dists : List ℚ) (tol m : ℚ)
    (hmem : m ∈ dists) (hmin : ∀ d ∈ dists, m ≤ d) :
    ((∃ n, processFace names dists tol = Except.ok (Outcome.accepted n)) ↔ m < tol) ∧
      (tol ≤ m →
        processFace names dists tol = Except.ok Outcome.unknown ∧
          attendanceCalls names dists tol = []) := by
  obtain ⟨best, hbest⟩ : ∃ b, np_argmin dists = some b := by
    cases dists with
    | nil => simp at hmem
    | cons x xs => exact ⟨_, rfl⟩
  obtain ⟨hlt, hmin', _⟩ := np_argmin_spec dists best hbest
  have hbm : dists.getD best 0 = m := by
    refine le_antisymm ?_ (hmin _ (getD_mem dists best hlt))
    obtain ⟨k, hk, hkm⟩ := List.mem_iff_getElem.mp hmem
    have h2 := hmin' k hk
    rw [List.getD_eq_getElem _ _ hk] at h2
    rw [hkm] at h2
    exact h2
  have hpf := processFace_eq_of_argmin names dists tol best hbest
  have hcmp := compare_faces_getD dists tol best hlt
  constructor
  · constructor
    · rintro ⟨n, hn⟩
      rw [hpf] at hn
      by_cases hcond :
          (compare_faces dists tol).getD best false = true ∧ dists.getD best 0 < tol
      · exact hbm ▸ hcond.2
      · rw [if_neg hcond] at hn
        exact absurd hn (by simp)
    · intro hm
      refine ⟨names.getD best "Unknown", ?_⟩
      rw [hpf]
      have h1 : dists.getD best 0 < tol := by rw [hbm]; exact hm
      have h2 : (compare_faces dists tol).getD best false = true := by
        rw [hcmp]; exact decide_eq_true (le_of_lt h1)
      rw [if_pos ⟨h2, h1⟩]
  · intro htol
    have hnot : ¬dists.getD best 0 < tol := by rw [hbm]; exact not_lt.mpr htol
    have hu : processFace names dists tol = Except.ok Outcome.unknown := by
      rw [hpf, if_neg (fun hc => hnot hc.2)]
    refine ⟨hu, ?_⟩
    unfold attendanceCalls
    rw [hu]

/-- Witness for C3: gallery `["A"]` at distance `1/2`, minimum `1/2 < 0.52`, is
accepted; the same theorem applied with tolerance-violating data is
exercised through the `tol ≤ m` branch at distance `52/100`. -/
theorem C3_threshold_acceptance_witness :
    ((1 : ℚ)/2 ∈ [(1 : ℚ)/2] ∧ ∀ d ∈ [(1 : ℚ)/2], (1 : ℚ)/2 ≤ d) ∧
      ((∃ n, processFace ["A"] [(1 : ℚ)/2] TOLERANCE = Except.ok (Outcome.accepted n)) ↔
        (1 : ℚ)/2 < TOLERANCE) := by
  have h1 : (1 : ℚ)/2 ∈ [(1 : ℚ)/2] := by simp
  have h2 : ∀ d ∈ [(1 : ℚ)/2], (1 : ℚ)/2 ≤ d := by simp
  exact ⟨⟨h1, h2⟩, (C3_threshold_acceptance ["A"] [(1 : ℚ)/2] TOLERANCE ((1 : ℚ)/2) h1 h2).1⟩

/-- Claim C6: the index returned by `np.argmin` is in range, attains the minimum
distance, and is the lowest gallery index among all indices attaining the
minimum: any other index whose distance is a lower bound of the whole list
lies at or after it. -/
theorem C6_tiebreak_lowest_index (dists : List ℚ) (best : Nat)
    (h : np_argmin dists = some best) :
    best < dists.length ∧
      (∀ k, k < dists.length → dists.getD best 0 ≤ dists.getD k 0) ∧
      ∀ i, i < dists.length →
        (∀ k, k < dists.length → dists.getD i 0 ≤ dists.getD k 0) → best ≤ i := by
  obtain ⟨hlt, hmin, hfirst⟩ := np_argmin_spec dists best h
  refine ⟨hlt, hmin, ?_⟩
  intro i hi hminI
  by_contra hc
  push_neg at hc
  exact absurd (lt_of_le_of_lt (hminI best hlt) (hfirst i hc)) (lt_irrefl _)

/-- Witness for C6: in `[1, 1/2, 1/2]` the minimum `1/2` is attained at indices
1 and 2, and `np.argmin` returns the lower index 1. -/
theorem C6_tiebreak_lowest_index_witness :
    np_argmin [(1 : ℚ), 1/2, 1/2] = some 1 ∧
      1 < [(1 : ℚ), 1/2, 1/2].length ∧
      (∀ k, k < [(1 : ℚ), 1/2, 1/2].length →
        [(1 : ℚ), 1/2, 1/2].getD 1 0 ≤ [(1 : ℚ), 1/2, 1/2].getD k 0) ∧
      ∀ i, i < [(1 : ℚ), 1/2, 1/2].length →
        (∀ k, k < [(1 : ℚ), 1/2, 1/2].length →
          [(1 : ℚ), 1/2, 1/2].getD i 0 ≤ [(1 : ℚ), 1/2, 1/2].getD k 0) → 1 ≤ i := by
  have h : np_argmin [(1 : ℚ), 1/2, 1/2] = some 1 := by
    norm_num [np_argmin, argminGo]
  have c := C6_tiebreak_lowest_index [(1 : ℚ), 1/2, 1/2] 1 h
  exact ⟨h, c.1, c.2.1, c.2.2⟩

theorem processFace_strict_eq_of_argmin (names : List String) (dists : List ℚ) (tol : ℚ)
    (best : Nat) (h : np_argmin dists = some best) :
    processFace_strict names dists tol =
      (if dists.getD best 0 < tol then
        Except.ok (Outcome.accepted (names.getD best "Unknown"))
      else Except.ok Outcome.unknown) := by
  unfold processFace_strict
  rw [h]

/-- Claim C10: the two-part acceptance test (`matches[best] and
face_distances[best] < TOLERANCE`) computes exactly the same outcome as the
single strict-threshold comparison on every input, because `compare_faces`
marks index `best` exactly when its distance is `≤ tol` and the strict
comparison already implies that; the `compare_faces` conjunct is redundant. -/
theorem C10_compare_conjunct_redundant (names : List String) (dists : List ℚ) (tol : ℚ) :
    processFace names dists tol = processFace_strict names dists tol := by
  cases hbest : np_argmin dists with
  | none =>
      unfold processFace processFace_strict
      rw [hbest]
  | some best =>
      have hb := np_argmin_lt_length dists best hbest
      rw [processFace_eq_of_argmin names dists tol best hbest,
        processFace_strict_eq_of_argmin names dists tol best hbest,
        compare_faces_getD dists tol best hb]
      by_cases h : dists.getD best 0 < tol
      · rw [if_pos ⟨decide_eq_true (le_of_lt h), h⟩, if_pos h]
      · rw [if_neg (fun hc => h hc.2), if_neg h]

/-- Claim C2 (code bug evidence): with an empty gallery the per-face
decision does not produce `Unknown` — `np.argmin` on the empty distance
array raises `ValueError`, which nothing catches, so the decision loop
crashes.  The claim (and the spec) say the outcome must be `Unknown`
without invoking the matcher. -/
theorem C2_empty_gallery_crashes :
    processFace [] [] TOLERANCE =
      Except.error "ValueError: attempt to get argmin of an empty sequence" := rfl

theorem mem_recently_logged (log : List LogEntry) (now : Int) (name : String) :
    name ∈ recently_logged log now ↔
      ∃ e ∈ log, e.name = name ∧ now - e.time < 3600 := by
  unfold recently_logged
  simp only [List.mem_map, List.mem_filter, decide_eq_true_eq]
  constructor
  · rintro ⟨e, ⟨he, ht⟩, hn⟩
    exact ⟨e, he, hn, ht⟩
  · rintro ⟨e, he, hn, ht⟩
    exact ⟨e, ⟨he, ht⟩, hn⟩

/-- Claim C7: when `log_attendance` suppresses a name (the name is on the
recent list, i.e. it was accepted within the cooldown window), it reports
`false`, appends nothing, and returns the ledger exactly as it was. -/
theorem C7_suppressed_leaves_ledger_unchanged (name : String) (now : Int)
    (log : List LogEntry) (h : name ∈ recently_logged log now) :
    log_attendance name now log = (false, log) := by
  unfold log_attendance
  rw [if_pos h]

/-- Witness for C7: "A" was accepted at time 0, so at time 10 it is on the
recent list and the call leaves the log `[("A", 0)]` unchanged. -/
theorem C7_suppressed_leaves_ledger_unchanged_witness :
    "A" ∈ recently_logged [⟨"A", 0⟩] 10 ∧
      log_attendance "A" 10 [⟨"A", 0⟩] = (false, [⟨"A", 0⟩]) := by
  have h : "A" ∈ recently_logged [⟨"A", 0⟩] 10 := by decide
  exact ⟨h, C7_suppressed_leaves_ledger_unchanged "A" 10 [⟨"A", 0⟩] h⟩

/-- Claim C1, amended to the local-log variant: after `log_attendance`
accepts `name` at `t1`, (a) any call for the same name within 3600 seconds
is suppressed and leaves the ledger unchanged, (b) once every entry for the
name is at least 3600 seconds old the name is accepted again, and (c) a
second accepted call can only happen 3600 or more seconds after the first —
two accepted outcomes for one identity are never closer than the window. -/
theorem C1_local_cooldown_dedup (name : String) (t1 t2 : Int)
    (log log1 : List LogEntry) (h1 : log_attendance name t1 log = (true, log1)) :
    (t2 - t1 < 3600 → log_attendance name t2 log1 = (false, log1)) ∧
      ((∀ e ∈ log1, e.name = name → 3600 ≤ t2 - e.time) →
        (log_attendance name t2 log1).1 = true) ∧
      ((log_attendance name t2 log1).1 = true → 3600 ≤ t2 - t1) := by
  have hlog1 : log1 = log ++ [⟨name, t1⟩] := by
    unfold log_attendance at h1
    by_cases h : name ∈ recently_logged log t1
    · rw [if_pos h] at h1
      exact absurd (congrArg Prod.fst h1) (by simp)
    · rw [if_neg h] at h1
      exact (congrArg Prod.snd h1).symm
  have hmem : (⟨name, t1⟩ : LogEntry) ∈ log1 := by
    rw [hlog1]
    simp
  refine ⟨?_, ?_, ?_⟩
  · intro hwin
    have hrec : name ∈ recently_logged log1 t2 :=
      (mem_recently_logged log1 t2 name).mpr ⟨⟨name, t1⟩, hmem, rfl, hwin⟩
    unfold log_attendance
    rw [if_pos hrec]
  · intro hold
    have hrec : name ∉ recently_logged log1 t2 := by
      intro hc
      obtain ⟨e, he, hn, ht⟩ := (mem_recently_logged log1 t2 name).mp hc
      have := hold e he hn
      omega
    unfold log_attendance
    rw [if_neg hrec]
  · intro hacc
    by_contra hclose
    push_neg at hclose
    have hrec : name ∈ recently_logged log1 t2 :=
      (mem_recently_logged log1 t2 name).mpr ⟨⟨name, t1⟩, hmem, rfl, hclose⟩
    unfold log_attendance at hacc
    rw [if_pos hrec] at hacc
    exact absurd hacc (by simp)

/-- Witness for C1: a fresh log accepts "A" at time 0; the theorem then
gives suppression inside the window, re-acceptance at time 4000 once every
entry for "A" is at least 3600 seconds old, and the window bound. -/
theorem C1_local_cooldown_dedup_witness :
    log_attendance "A" 0 [] = (true, [⟨"A", 0⟩]) ∧
      ((4000 : Int) - 0 < 3600 → log_attendance "A" 4000 [⟨"A", 0⟩] = (false, [⟨"A", 0⟩])) ∧
      ((∀ e ∈ [(⟨"A", 0⟩ : LogEntry)], e.name = "A" → 3600 ≤ (4000 : Int) - e.time) →
        (log_attendance "A" 4000 [⟨"A", 0⟩]).1 = true) ∧
      ((log_attendance "A" 4000 [⟨"A", 0⟩]).1 = true → 3600 ≤ (4000 : Int) - 0) := by
  have h1 : log_attendance "A" 0 [] = (true, [⟨"A", 0⟩]) := by decide
  have c := C1_local_cooldown_dedup "A" 0 4000 [] [⟨"A", 0⟩] h1
  exact ⟨h1, c.1, c.2.1, c.2.2⟩

/-- Counterexample to C1 as stated: in the remote HTTP variant the claim is
false.  With "chetan_yadav" enrolled as a student, two deliveries of the
identical identity one second apart are both answered 201 and both insert
an `Attendance` row: two accepted outcomes far closer together than any
cooldown window, and the second is recorded, not suppressed. -/
theorem C1_remote_no_cooldown_counterexample :
    (mark_attendance (some "chetan_yadav") 0 ⟨["chetan_yadav"], [], []⟩).1.1 = 201 ∧
      (mark_attendance (some "chetan_yadav") 1
          (mark_attendance (some "chetan_yadav") 0 ⟨["chetan_yadav"], [], []⟩).2).1.1 = 201 ∧
      (mark_attendance (some "chetan_yadav") 1
          (mark_attendance (some "chetan_yadav") 0 ⟨["chetan_yadav"], [], []⟩).2).2.records =
        [("chetan_yadav", 0), ("chetan_yadav", 1)] ∧
      (1 : Int) - 0 < 3600 := by decide

/-- Claim C8: every delivery attempt performs exactly one POST — no retry
and no requeue in any branch — and both a connection failure and any other
exception are caught and turned into a logged outcome, so no error crosses
the decision loop's boundary to the caller. -/
theorem C8_best_effort_failure_policy (n m : String) (net : NetResult) :
    (mark_attendance_via_api n net).1 = 1 ∧
      (mark_attendance_via_api n NetResult.connectionLost).2 = ClientOutcome.apiFatal ∧
      (mark_attendance_via_api n (NetResult.raised m)).2 = ClientOutcome.apiError m := by
  refine ⟨?_, rfl, rfl⟩
  cases net with
  | response status errField =>
      by_cases h : status = 201 <;> simp [mark_attendance_via_api, h]
  | connectionLost => rfl
  | raised m => rfl

/-- Counterexample to C5 as stated: the client has no dedicated handling
for a 409 ("conflict") response — it lands in the same generic-failure
branch as any other non-201 code, not in a distinguished duplicate
treatment as the claimed protocol requires. -/
theorem C5_no_conflict_branch_counterexample :
    code_response_class 409 none = SpecClass.genericFailure ∧
      spec_response_class 409 = SpecClass.conflictDuplicate ∧
      code_response_class 409 none ≠ spec_response_class 409 := by decide

/-- Claim C5, amended: the client treats a 201 response as success and
every other response — 409 included — uniformly as a generic failure whose
message is the `error` field of the JSON body (defaulting to
"Unknown server issue."); on the server side, `/api/attendance/mark` never
answers 409, and every non-201 answer it produces carries an `error` field
in its JSON body. -/
theorem C5_response_protocol_amended (status : Nat) (errField : Option String)
    (fid : Option String) (now : Int) (s : ApiState) :
    code_response_class status errField =
        (if status = 201 then SpecClass.created else SpecClass.genericFailure) ∧
      (mark_attendance fid now s).1.1 ≠ 409 ∧
      ((mark_attendance fid now s).1.1 = 201 ∨
        ∃ e, (mark_attendance fid now s).1.2 = ApiBody.error e) := by
  refine ⟨?_, ?_, ?_⟩
  · by_cases h : status = 201 <;>
      simp [code_response_class, mark_attendance_via_api, h]
  · cases fid with
    | none => simp [mark_attendance]
    | some f =>
        by_cases hf : f = ""
        · simp [mark_attendance, hf]
        · by_cases hk : f ∈ s.studentIds ∨ f ∈ s.teacherIds <;>
            simp [mark_attendance, hf, hk]
  · cases fid with
    | none => exact Or.inr ⟨"Missing face_id in request data.", rfl⟩
    | some f =>
        by_cases hf : f = ""
        · refine Or.inr ⟨"Missing face_id in request data.", ?_⟩
          simp [mark_attendance, hf]
        · by_cases hk : f ∈ s.studentIds ∨ f ∈ s.teacherIds
          · refine Or.inl ?_
            simp [mark_attendance, hf, hk]
          · refine Or.inr
              ⟨"ID " ++ f ++ " recognized by AI but not found in DB. Enroll first.", ?_⟩
            simp [mark_attendance, hf, hk]

/-- Inner loop of `load_known_faces` in closed form: one entry per image
with at least one detected encoding, carrying that image's first encoding
and the directory's display name. -/
theorem loadImages_spec (disp : String) (imgs : List RosterImage) :
    loadImages disp imgs =
      (imgs.filterMap (fun img => img.encodings.head?),
        (imgs.filter fun img => !img.encodings.isEmpty).map fun _ => disp) := by
  induction imgs with
  | nil => rfl
  | cons img rest ih =>
      cases h : img.encodings with
      | nil => simp [loadImages, h, ih, List.filterMap_cons, List.filter_cons]
      | cons e es => simp [loadImages, h, ih, List.filterMap_cons, List.filter_cons]

/-- Counterexample to C4 as stated: a roster with one identity directory
"chetan_yadav" holding two encodable reference images produces a gallery
with two entries — both encodings are kept (the second image is not
ignored) and the identity key "Chetan Yadav" occurs twice, so identity_key
is not unique across entries. -/
theorem C4_duplicate_identity_counterexample :
    (load_known_faces [⟨"chetan_yadav", [⟨[[1]]⟩, ⟨[[2]]⟩]⟩]).2 =
        ["Chetan Yadav", "Chetan Yadav"] ∧
      ¬(load_known_faces [⟨"chetan_yadav", [⟨[[1]]⟩, ⟨[[2]]⟩]⟩]).2.Nodup ∧
      (load_known_faces [⟨"chetan_yadav", [⟨[[1]]⟩, ⟨[[2]]⟩]⟩]).1 = [[1], [2]] := by
  refine ⟨by decide, by decide, by decide⟩

/-- Claim C4, amended: after loading the roster, the gallery holds — in
directory order, skipping dot-directories — one entry per
successfully-encoded reference image, keeping only the first detected
encoding of each image; an identity with several encodable images therefore
appears once per such image, and identity_key need not be unique. -/
theorem C4_gallery_construction_amended (roster : List RosterDir) :
    (load_known_faces roster).1 =
        (roster.filter fun d => !startsWithDot d.name).flatMap
          (fun d => d.images.filterMap fun img => img.encodings.head?) ∧
      (load_known_faces roster).2 =
        (roster.filter fun d => !startsWithDot d.name).flatMap
          (fun d => (d.images.filter fun img => !img.encodings.isEmpty).map
            fun _ => display_name d.name) := by
  induction roster with
  | nil => exact ⟨rfl, rfl⟩
  | cons d rest ih =>
      by_cases h : startsWithDot d.name = true
      · simpa [load_known_faces, h, List.filter_cons] using ih
      · simp [load_known_faces, h, List.filter_cons, loadImages_spec, ih.1, ih.2]

/-- Characters the round-trip claim quantifies over: lowercase ASCII
letters and the underscore. -/
def lowerUnderscoreChars : List Char := "abcdefghijklmnopqrstuvwxyz_".data

theorem lowerChar_facts : ∀ c ∈ lowerUnderscoreChars, c ≠ '_' →
    (c.isAlpha = true ∧ c.toLower = c ∧ c.toUpper.toLower = c ∧ c ≠ ' ') := by
  decide

theorem u2s_char_class : ∀ c ∈ lowerUnderscoreChars,
    (if c = '_' then ' ' else c) = ' ' ∨
      ((if c = '_' then ' ' else c) ∈ lowerUnderscoreChars ∧
        (if c = '_' then ' ' else c) ≠ '_') := by
  decide

theorem s2u_u2s_char : ∀ c ∈ lowerUnderscoreChars,
    (if (if c = '_' then ' ' else c) = ' ' then '_' else if c = '_' then ' ' else c) = c := by
  decide

/-- Lower-casing undoes title-casing on a list of spaces and lowercase
letters, whatever the incoming previous-character flag is. -/
theorem py_lower_titleGo (l : List Char) :
    ∀ b : Bool, (∀ c ∈ l, c = ' ' ∨ (c ∈ lowerUnderscoreChars ∧ c ≠ '_')) →
      py_lower (titleGo b l) = l := by
  induction l with
  | nil => intro b _; rfl
  | cons c cs ih =>
      intro b h
      have hc := h c (List.mem_cons_self c cs)
      have hcs : ∀ x ∈ cs, x = ' ' ∨ (x ∈ lowerUnderscoreChars ∧ x ≠ '_') :=
        fun x hx => h x (List.mem_cons_of_mem c hx)
      have htail := ih false hcs
      have htailT := ih true hcs
      rcases hc with hc | ⟨hmem, hne⟩
      · subst hc
        unfold titleGo
        rw [if_neg (by decide : ¬(' ' : Char).isAlpha = true)]
        unfold py_lower
        rw [List.map_cons]
        unfold py_lower at htail
        rw [htail, show (' ' : Char).toLower = ' ' from by decide]
      · obtain ⟨hA, hL, hUL, _⟩ := lowerChar_facts c hmem hne
        unfold titleGo
        rw [if_pos hA]
        unfold py_lower
        rw [List.map_cons]
        unfold py_lower at htailT
        rw [htailT]
        have hu : (if b = true then c.toLower else c.toUpper).toLower = c := by
          cases b with
          | true => rw [if_pos rfl, hL, hL]
          | false => rw [if_neg (by decide), hUL]
        rw [hu]

/-- Replacing spaces back with underscores undoes replacing underscores
with spaces, on names made of lowercase letters and underscores. -/
theorem s2u_u2s (l : List Char) (h : ∀ c ∈ l, c ∈ lowerUnderscoreChars) :
    spacesToUnderscores (underscoresToSpaces l) = l := by
  induction l with
  | nil => rfl
  | cons c cs ih =>
      have hc := h c (List.mem_cons_self c cs)
      have hcs : ∀ x ∈ cs, x ∈ lowerUnderscoreChars :=
        fun x hx => h x (List.mem_cons_of_mem c hx)
      have htail := ih hcs
      unfold underscoresToSpaces spacesToUnderscores
      rw [List.map_cons, List.map_cons]
      unfold underscoresToSpaces spacesToUnderscores at htail
      rw [htail, s2u_u2s_char c hc]

/-- Claim C9: the display name is the roster directory name with
underscores replaced by spaces and then title-cased, the `face_id` sent to
the remote sink is the display name lower-cased with spaces replaced by
underscores, and for every directory name made of lowercase ASCII letters
and underscores the `face_id` equals the original directory name. -/
theorem C9_face_id_roundtrip (dirname : String)
    (h : ∀ c ∈ dirname.data, c ∈ lowerUnderscoreChars) :
    payload_face_id (display_name dirname) = dirname := by
  have hclass : ∀ c ∈ underscoresToSpaces dirname.data,
      c = ' ' ∨ (c ∈ lowerUnderscoreChars ∧ c ≠ '_') := by
    intro c hcmem
    unfold underscoresToSpaces at hcmem
    obtain ⟨x, hx, hfx⟩ := List.mem_map.mp hcmem
    exact hfx ▸ u2s_char_class x (h x hx)
  show String.mk (spacesToUnderscores (py_lower
      (py_title (underscoresToSpaces dirname.data)))) = dirname
  unfold py_title
  rw [py_lower_titleGo (underscoresToSpaces dirname.data) false hclass,
    s2u_u2s dirname.data h]

/-- Witness for C9: the roster directory "chetan_yadav" renders as
"Chetan Yadav" and its payload face_id round-trips to "chetan_yadav". -/
theorem C9_face_id_roundtrip_witness :
    (∀ c ∈ ("chetan_yadav" : String).data, c ∈ lowerUnderscoreChars) ∧
      payload_face_id (display_name "chetan_yadav") = "chetan_yadav" := by
  have h : ∀ c ∈ ("chetan_yadav" : String).data, c ∈ lowerUnderscoreChars := by decide
  exact ⟨h, C9_face_id_roundtrip "chetan_yadav" h⟩

end Attendance
